import Mathlib

/-!
Verification of the clause-structure QA core (`src/main.py`).

The Python core is shallowly embedded:
* `PyVal` models the loosely-typed JSON-ish values that may appear in a
  clause record field (`None`, strings, ints, booleans, lists of strings).
* `pyStr`, `pyTruthy`, `pyStrip` model `str(...)`, Python truthiness and
  `str.strip()` (restricted to ASCII whitespace; the source is only ever
  exercised on ASCII clause data).
* `pyIntOfChars?` / `pyFloatAccepts` model `int(...)` / `float(...)`
  acceptance on ASCII text (optional surrounding whitespace, optional
  sign, base-10 digits with single underscores between digits; floats
  additionally with fraction, exponent, inf/nan forms).
* `parse_clause_parts`, `is_valid_transition`, `validate_clauses`,
  `extract_display_fields` are direct translations of the functions of
  the same names in `src/main.py`; the orchestrator's loop state is the
  explicit `ScanState` record, and its `for` loops become structural
  recursions (`ancestorScan`, `validateGo`).
-/

/-- Model of the Python values a clause-record field can hold: `None`,
`str`, `int`, `bool`, and lists (of strings, as produced for
`clause_path` by the upstream extractor). -/
inductive PyVal where
  | none : PyVal
  | str : String → PyVal
  | int : Int → PyVal
  | bool : Bool → PyVal
  | list : List String → PyVal
deriving DecidableEq, Repr

instance : Inhabited PyVal := ⟨PyVal.none⟩

/-- Comma-and-space join, as in Python's list repr. -/
def joinComma : List String → String
  | [] => ""
  | [x] => x
  | x :: xs => x ++ ", " ++ joinComma xs

/-- Python `repr` on the modelled values (string escaping inside quotes is
not modelled; the clause data contains no quotes). -/
def pyRepr : PyVal → String
  | PyVal.none => "None"
  | PyVal.str s => "'" ++ s ++ "'"
  | PyVal.int n => toString n
  | PyVal.bool b => if b then "True" else "False"
  | PyVal.list l => "[" ++ joinComma (l.map (fun s => "'" ++ s ++ "'")) ++ "]"

/-- Python `str(...)` on the modelled values. -/
def pyStr : PyVal → String
  | PyVal.str s => s
  | v => pyRepr v

/-- Python truthiness of the modelled values. -/
def pyTruthy : PyVal → Bool
  | PyVal.none => false
  | PyVal.str s => !(s == "")
  | PyVal.int n => !(n == 0)
  | PyVal.bool b => b
  | PyVal.list l => !l.isEmpty

/-- The ASCII whitespace characters stripped by Python's `str.strip()`. -/
def pySpace (c : Char) : Bool :=
  c == ' ' || c == '\t' || c == '\n' || c == '\r' || c == '\x0b' || c == '\x0c'

/-- Strip `pySpace` characters from both ends of a character list. -/
def stripChars (l : List Char) : List Char :=
  ((l.dropWhile pySpace).reverse.dropWhile pySpace).reverse

/-- Python `str.strip()` (no argument form). -/
def pyStrip (s : String) : String := String.mk (stripChars s.toList)

/-- Drop trailing `'.'` characters: Python `str.rstrip('.')`. -/
def rstripDots (l : List Char) : List Char :=
  (l.reverse.dropWhile (fun c => c == '.')).reverse

/-- Tail of a Python digit run: digits with single underscores allowed
between digits (`int`/`float` literal digit groups). -/
def pyDigitsTail : List Char → Bool
  | [] => true
  | '_' :: rest =>
    match rest with
    | c :: rest2 => c.isDigit && pyDigitsTail rest2
    | [] => false
  | c :: rest => c.isDigit && pyDigitsTail rest

/-- A nonempty Python digit run (underscores only between digits). -/
def pyDigitRun (l : List Char) : Bool :=
  match l with
  | [] => false
  | c :: rest => c.isDigit && pyDigitsTail rest

/-- Accumulate the base-10 value of a digit run, skipping underscores. -/
def natOfDigitsAux (acc : Nat) : List Char → Nat
  | [] => acc
  | c :: rest =>
    if c == '_' then natOfDigitsAux acc rest
    else natOfDigitsAux (acc * 10 + (c.toNat - '0'.toNat)) rest

/-- Drop one leading `'+'` or `'-'` sign. -/
def dropSign : List Char → List Char
  | '+' :: rest => rest
  | '-' :: rest => rest
  | l => l

/-- Python `int(text)` on ASCII text: optional surrounding whitespace,
optional sign, then a base-10 digit run (underscores allowed between
digits).  Returns `Option.none` exactly when Python raises `ValueError`. -/
def pyIntOfChars? (l : List Char) : Option Int :=
  let t := stripChars l
  match t with
  | '+' :: rest => if pyDigitRun rest then some (natOfDigitsAux 0 rest : Nat) else Option.none
  | '-' :: rest => if pyDigitRun rest then some (-(natOfDigitsAux 0 rest : Nat) : Int) else Option.none
  | ds => if pyDigitRun ds then some (natOfDigitsAux 0 ds : Nat) else Option.none

/-- Greedily consume the tail of a digit run, stopping before any
character that cannot continue it. -/
def munchTail : List Char → List Char
  | '_' :: c :: rest => if c.isDigit then munchTail rest else '_' :: c :: rest
  | c :: rest => if c.isDigit then munchTail rest else c :: rest
  | [] => []

/-- Consume a nonempty digit run; `Option.none` if the list does not start
with a digit. -/
def munchRun? : List Char → Option (List Char)
  | c :: rest => if c.isDigit then some (munchTail rest) else Option.none
  | [] => Option.none

/-- Case-insensitive `inf` / `infinity` / `nan`, as accepted by Python
`float(...)`. -/
def isInfNan (l : List Char) : Bool :=
  let low := l.map Char.toLower
  low == ['i', 'n', 'f'] || low == "infinity".toList || low == "nan".toList

/-- Optional exponent part of a Python float literal, which must consume
the whole remaining input. -/
def expPart : List Char → Bool
  | [] => true
  | c :: rest =>
    if c == 'e' || c == 'E' then
      match munchRun? (dropSign rest) with
      | some [] => true
      | _ => false
    else false

/-- Unsigned Python float number: digits, optional fraction, optional
exponent (or fraction-first form `.digits`). -/
def floatNumber (l : List Char) : Bool :=
  match munchRun? l with
  | some rest =>
    match rest with
    | '.' :: rest2 =>
      match munchRun? rest2 with
      | some rest3 => expPart rest3
      | Option.none => expPart rest2
    | _ => expPart rest
  | Option.none =>
    match l with
    | '.' :: rest2 =>
      match munchRun? rest2 with
      | some rest3 => expPart rest3
      | Option.none => false
    | _ => false

/-- Whether Python `float(text)` succeeds on ASCII text: optional
surrounding whitespace, optional sign, then a float number or
`inf`/`infinity`/`nan`. -/
def pyFloatAccepts (s : String) : Bool :=
  let t := dropSign (stripChars s.toList)
  isInfNan t || floatNumber t

/-- Split a character list on `'.'`, Python `text.split('.')`: the result
is always nonempty, and empty input yields one empty segment. -/
def splitDots : List Char → List (List Char)
  | [] => [[]]
  | c :: rest =>
    let segs := splitDots rest
    if c == '.' then [] :: segs
    else
      match segs with
      | s :: ss => (c :: s) :: ss
      | [] => [[c]]

/-- `normalize_clause_number` from `src/main.py`: falsy input becomes the
empty string; otherwise coerce to text and strip trailing dots. -/
def normalize_clause_number (v : PyVal) : String :=
  if pyTruthy v then String.mk (rstripDots (pyStr v).toList) else ""

/-- Parse every dot-segment with Python `int(...)`; `Option.none` as soon
as one segment fails (the `try`/`except ValueError` in the source). -/
def parseSegs : List (List Char) → Option (List Int)
  | [] => some []
  | p :: rest =>
    match pyIntOfChars? p with
    | some n =>
      match parseSegs rest with
      | some l => some (n :: l)
      | Option.none => Option.none
    | Option.none => Option.none

/-- `parse_clause_parts` from `src/main.py`: normalize, split on `'.'`,
parse each segment with `int(...)`, returning `[]` if normalization gives
the empty string or any segment fails. -/
def parse_clause_parts (v : PyVal) : List Int :=
  let normalized := normalize_clause_number v
  if normalized == "" then []
  else (parseSegs (splitDots normalized.toList)).getD []


/-- Dot-join of integer segments: Python `'.'.join(map(str, parts))`. -/
def joinDots : List Int → String
  | [] => ""
  | [x] => toString x
  | x :: xs => toString x ++ "." ++ joinDots xs

/-- The `for level in range(curr_len - 1, -1, -1)` loop in the shallower
branch of `is_valid_transition`, with `fuel = level + 1` (so fuel `n`
scans levels `n - 1` down to `0`).  Returns whether some level makes the
ascend-then-increment check succeed. -/
def ancestorScan (prev_parts curr_parts : List Int) : Nat → Bool
  | 0 => false
  | level + 1 =>
    if level < curr_parts.length - 1 ∧
        curr_parts.take (level + 1) = prev_parts.take (level + 1) then
      ancestorScan prev_parts curr_parts level
    else
      let ancestor :=
        if level < prev_parts.length then prev_parts.take (level + 1) else prev_parts
      if curr_parts.take level = ancestor.take level ∧
          curr_parts.getD level 0 = ancestor.getD level 0 + 1 then
        true
      else ancestorScan prev_parts curr_parts level

/-- `is_valid_transition` from `src/main.py`.  Python's negative indexing
and slicing become `getD (len - 1)` and `take (len - 1)`. -/
def is_valid_transition (prev_parts curr_parts : List Int) : Bool × Option String :=
  if prev_parts = [] ∨ curr_parts = [] then (true, Option.none)
  else
    let prev_len := prev_parts.length
    let curr_len := curr_parts.length
    if curr_len = prev_len then
      if curr_parts.take (curr_len - 1) = prev_parts.take (prev_len - 1) ∧
          curr_parts.getD (curr_len - 1) 0 = prev_parts.getD (prev_len - 1) 0 + 1 then
        (true, Option.none)
      else
        (false, some ("expected " ++ toString (prev_parts.getD (prev_len - 1) 0 + 1) ++
          " at level " ++ toString curr_len ++
          ", found " ++ toString (curr_parts.getD (curr_len - 1) 0)))
    else if curr_len = prev_len + 1 then
      if curr_parts.take (curr_len - 1) = prev_parts ∧
          curr_parts.getD (curr_len - 1) 0 = 1 then
        (true, Option.none)
      else if curr_parts.take (curr_len - 1) = prev_parts then
        (false, some ("child should start at 1, found " ++
          toString (curr_parts.getD (curr_len - 1) 0)))
      else
        (false, some ("invalid child: expected " ++ joinDots prev_parts ++ ".1"))
    else if curr_len > prev_len + 1 then
      (false, some ("skipped hierarchy levels, expected " ++ (joinDots prev_parts ++ ".1")))
    else if curr_len < prev_len then
      if ancestorScan prev_parts curr_parts curr_len then (true, Option.none)
      else if curr_parts.getD 0 0 = prev_parts.getD 0 0 + 1 ∧
          (curr_len = 1 ∨ curr_parts.drop 1 = List.replicate (curr_len - 1) 1) then
        (true, Option.none)
      else (false, some "invalid return to ancestor level")
    else (true, Option.none)

/-- An input clause record: every field optional and loosely typed, as at
the `/analyze` boundary of the source. -/
structure ClauseRecord where
  clause_number : Option PyVal
  clause_title : Option PyVal
  clause_page : Option PyVal
  clause_path : Option PyVal
  clause_content : Option PyVal
deriving DecidableEq, Inhabited, Repr

/-- A `continuity_gaps` entry of `validate_clauses`. -/
structure GapIssue where
  prev_index : Int
  curr_index : Nat
  after_clause : PyVal
  before_clause : PyVal
  reason : Option String
deriving DecidableEq, Repr

/-- An `empty_titles` entry of `validate_clauses`. -/
structure TitleIssue where
  index : Nat
  clause_number : PyVal
deriving DecidableEq, Repr

/-- An `invalid_pages` entry of `validate_clauses`. -/
structure PageIssue where
  index : Nat
  clause_number : PyVal
  reason : String
deriving DecidableEq, Repr

/-- The `issues` dictionary assembled by `validate_clauses`. -/
structure Issues where
  continuity_gaps : List GapIssue
  empty_titles : List TitleIssue
  invalid_pages : List PageIssue
deriving DecidableEq, Repr

/-- The loop state of `validate_clauses`: `prev_clause_number`,
`prev_parts`, `prev_index`. -/
structure ScanState where
  prev_clause_number : PyVal
  prev_parts : List Int
  prev_index : Int
deriving DecidableEq, Repr

/-- `clause.get("clause_number", "")`. -/
def numRaw (c : ClauseRecord) : PyVal := c.clause_number.getD (PyVal.str "")

/-- `clause_number or "(no number)"`: the value recorded on an issue. -/
def numOrPlaceholder (c : ClauseRecord) : PyVal :=
  if pyTruthy (numRaw c) then numRaw c else PyVal.str "(no number)"

/-- The title check of `validate_clauses`:
`not clause_title or not str(clause_title).strip()`. -/
def blankTitleB (c : ClauseRecord) : Bool :=
  let t := c.clause_title.getD (PyVal.str "")
  !pyTruthy t || pyStrip (pyStr t) == ""

/-- `str(clause_page).strip() if clause_page is not None else ""`. -/
def pageStrOf (c : ClauseRecord) : String :=
  match c.clause_page.getD (PyVal.str "") with
  | PyVal.none => ""
  | v => pyStrip (pyStr v)

/-- The `empty_titles` entries contributed by the clause at index `i`. -/
def titleList (i : Nat) (c : ClauseRecord) : List TitleIssue :=
  if blankTitleB c then [⟨i, numOrPlaceholder c⟩] else []

/-- The `invalid_pages` entries contributed by the clause at index `i`. -/
def pageList (i : Nat) (c : ClauseRecord) : List PageIssue :=
  if pageStrOf c == "" then [⟨i, numOrPlaceholder c, "empty"⟩]
  else if !pyFloatAccepts (pageStrOf c) then
    [⟨i, numOrPlaceholder c, "non-numeric: '" ++ pageStrOf c ++ "'"⟩]
  else []

/-- The `continuity_gaps` entries contributed by the clause at index `i`
given the current loop state. -/
def gapList (i : Nat) (st : ScanState) (c : ClauseRecord) : List GapIssue :=
  let curr_parts := parse_clause_parts (numRaw c)
  if curr_parts ≠ [] ∧ st.prev_parts ≠ [] then
    let r := is_valid_transition st.prev_parts curr_parts
    if r.1 = false then
      [⟨st.prev_index, i, st.prev_clause_number, numRaw c, r.2⟩]
    else []
  else []

/-- The loop-state update at the end of one iteration of
`validate_clauses`: advance only when the current number parsed. -/
def stepState (i : Nat) (st : ScanState) (c : ClauseRecord) : ScanState :=
  let curr_parts := parse_clause_parts (numRaw c)
  if curr_parts ≠ [] then ⟨numRaw c, curr_parts, (i : Int)⟩ else st

/-- The scan loop of `validate_clauses`, indexing from `i` with loop
state `st`. -/
def validateGo (i : Nat) (st : ScanState) : List ClauseRecord → Issues
  | [] => ⟨[], [], []⟩
  | c :: rest =>
    let tail := validateGo (i + 1) (stepState i st c) rest
    ⟨gapList i st c ++ tail.continuity_gaps,
     titleList i c ++ tail.empty_titles,
     pageList i c ++ tail.invalid_pages⟩

/-- The initial loop state of `validate_clauses`
(`prev_clause_number = None`, `prev_parts = []`, `prev_index = -1`). -/
def initState : ScanState := ⟨PyVal.none, [], -1⟩

/-- `validate_clauses` from `src/main.py`. -/
def validate_clauses (clauses : List ClauseRecord) : Issues :=
  validateGo 0 initState clauses

/-- The loop state after scanning a list, indexing from `i`. -/
def stateGo (i : Nat) (st : ScanState) : List ClauseRecord → ScanState
  | [] => st
  | c :: rest => stateGo (i + 1) (stepState i st c) rest

/-- A display row produced by `extract_display_fields`. -/
structure DisplayClause where
  clause_number : String
  clause_title : PyVal
  clause_page : PyVal
  clause_path : PyVal
  clause_content : PyVal
deriving DecidableEq, Inhabited, Repr

/-- The projection of one record in `extract_display_fields`. -/
def displayOf (c : ClauseRecord) : DisplayClause :=
  { clause_number :=
      normalize_clause_number (PyVal.str (pyStr (c.clause_number.getD (PyVal.str ""))))
  , clause_title := c.clause_title.getD (PyVal.str "")
  , clause_page := c.clause_page.getD (PyVal.str "")
  , clause_path := c.clause_path.getD (PyVal.list [])
  , clause_content := c.clause_content.getD (PyVal.str "") }

/-- `extract_display_fields` from `src/main.py`. -/
def extract_display_fields (clauses : List ClauseRecord) : List DisplayClause :=
  clauses.map displayOf

/-- The record at index `i` of a clause list (all-absent when out of
range; only ever used under an in-range hypothesis). -/
def recAt (cs : List ClauseRecord) (i : Nat) : ClauseRecord := cs.getD i default

/-- A record carrying only a clause number, as in the spec's
number-sequence examples. -/
def numberedRecord (s : String) : ClauseRecord :=
  ⟨some (PyVal.str s), Option.none, Option.none, Option.none, Option.none⟩

/-- The `empty_titles` entries of the scan over a list, indexing from `i`. -/
def titlesFrom (i : Nat) : List ClauseRecord → List TitleIssue
  | [] => []
  | c :: rest => titleList i c ++ titlesFrom (i + 1) rest

/-- The `invalid_pages` entries of the scan over a list, indexing from `i`. -/
def pagesFrom (i : Nat) : List ClauseRecord → List PageIssue
  | [] => []
  | c :: rest => pageList i c ++ pagesFrom (i + 1) rest

/-- Whether the clause gets an `invalid_pages` entry (of either reason). -/
def pageBadB (c : ClauseRecord) : Bool :=
  pageStrOf c == "" || !pyFloatAccepts (pageStrOf c)

/-- Spec-side: the title field is absent (or null) or holds text. -/
def specTitleTextual (c : ClauseRecord) : Prop :=
  c.clause_title = Option.none ∨ c.clause_title = some PyVal.none ∨
    ∃ s, c.clause_title = some (PyVal.str s)

/-- Spec-side ("absent, empty, or whitespace-only"): the title field is
absent (or null), or holds text consisting only of whitespace. -/
def specTitleBlank (c : ClauseRecord) : Prop :=
  c.clause_title = Option.none ∨ c.clause_title = some PyVal.none ∨
    ∃ s, c.clause_title = some (PyVal.str s) ∧ s.toList.all pySpace = true

/-- Spec-side: the number field is absent (or null) or holds text. -/
def specNumberTextual (c : ClauseRecord) : Prop :=
  c.clause_number = Option.none ∨ c.clause_number = some PyVal.none ∨
    ∃ s, c.clause_number = some (PyVal.str s)

/-- Spec-side ("the clause's number, or the placeholder when absent or
empty"): the value an issue should record for the clause's number. -/
def specRecordedNumber (c : ClauseRecord) : PyVal :=
  match c.clause_number with
  | some (PyVal.str s) => if s == "" then PyVal.str "(no number)" else PyVal.str s
  | _ => PyVal.str "(no number)"

/-- A one-clause list whose title is whitespace-only. -/
def titleBlankExample : List ClauseRecord :=
  [⟨some (PyVal.str "1"), some (PyVal.str " "), some (PyVal.str "2"),
    Option.none, Option.none⟩]

/-- A record whose page field is present but null. -/
def nullPageRecord : ClauseRecord :=
  ⟨Option.none, some (PyVal.str "T"), some PyVal.none, Option.none, Option.none⟩

/-- A two-clause list producing one continuity gap. -/
def gapPairExample : List ClauseRecord := [numberedRecord "1", numberedRecord "3"]

/-- A one-clause list exercising the display projection. -/
def displayExample : List ClauseRecord := [numberedRecord "6.1.2"]

/-- A record whose number is the all-dots text "...". -/
def dotsNumberRecord : ClauseRecord :=
  ⟨some (PyVal.str "..."), Option.none, Option.none, Option.none, Option.none⟩

/-- A record whose number field is present but null. -/
def nullNumberRecord : ClauseRecord :=
  ⟨some PyVal.none, Option.none, Option.none, Option.none, Option.none⟩

/-! ### List-indexing helper lemmas -/

theorem getD_take_lt (l : List Int) (n k : Nat) (h : k < n) :
    (l.take n).getD k 0 = l.getD k 0 := by
  simp [List.getD_eq_getElem?_getD, List.getElem?_take, h]

theorem getD_eq_of_take_succ_eq (l₁ l₂ : List Int) (n : Nat)
    (h : l₁.take (n + 1) = l₂.take (n + 1)) : l₁.getD n 0 = l₂.getD n 0 := by
  rw [← getD_take_lt l₁ (n + 1) n (by omega), h, getD_take_lt l₂ (n + 1) n (by omega)]

theorem take_eq_iff_getD (l₁ l₂ : List Int) (n : Nat)
    (h₁ : n ≤ l₁.length) (h₂ : n ≤ l₂.length) :
    l₁.take n = l₂.take n ↔ ∀ k, k < n → l₁.getD k 0 = l₂.getD k 0 := by
  constructor
  · intro h k hk
    rw [← getD_take_lt l₁ n k hk, h, getD_take_lt l₂ n k hk]
  · intro h
    apply List.ext_getElem?
    intro m
    rw [List.getElem?_take, List.getElem?_take]
    by_cases hm : m < n
    · rw [if_pos hm, if_pos hm]
      have hb₁ : m < l₁.length := lt_of_lt_of_le hm h₁
      have hb₂ : m < l₂.length := lt_of_lt_of_le hm h₂
      rw [List.getElem?_eq_getElem hb₁, List.getElem?_eq_getElem hb₂]
      have := h m hm
      rw [List.getD_eq_getElem l₁ 0 hb₁, List.getD_eq_getElem l₂ 0 hb₂] at this
      rw [this]
    · rw [if_neg hm, if_neg hm]

theorem drop_one_replicate_iff (a : Int) (t : List Int) :
    (t = List.replicate t.length (1 : Int)) ↔
      (∀ k, 1 ≤ k → k < t.length + 1 → (a :: t).getD k 0 = 1) := by
  rw [List.eq_replicate_iff]
  constructor
  · intro h k h1 h2
    obtain ⟨m, rfl⟩ : ∃ m, k = m + 1 := ⟨k - 1, by omega⟩
    rw [List.getD_cons_succ]
    have hm : m < t.length := by omega
    rw [List.getD_eq_getElem t 0 hm]
    exact h.2 _ (List.getElem_mem hm)
  · intro h
    refine ⟨rfl, ?_⟩
    intro b hb
    obtain ⟨m, hm, rfl⟩ := List.mem_iff_getElem.mp hb
    have := h (m + 1) (by omega) (by omega)
    rwa [List.getD_cons_succ, List.getD_eq_getElem t 0 hm] at this

theorem stripChars_eq_nil_iff (l : List Char) :
    stripChars l = [] ↔ ∀ x ∈ l, pySpace x = true := by
  unfold stripChars
  rw [List.reverse_eq_nil_iff, List.dropWhile_eq_nil_iff]
  constructor
  · intro h x hx
    rw [← List.takeWhile_append_dropWhile pySpace l] at hx
    rcases List.mem_append.mp hx with hx | hx
    · exact List.mem_takeWhile_imp hx
    · exact h x (List.mem_reverse.mpr hx)
  · intro h x hx
    exact h x ((List.dropWhile_sublist pySpace).mem (List.mem_reverse.mp hx))

theorem rstripDots_eq_nil_iff (l : List Char) :
    rstripDots l = [] ↔ ∀ x ∈ l, x = '.' := by
  unfold rstripDots
  rw [List.reverse_eq_nil_iff, List.dropWhile_eq_nil_iff]
  constructor
  · intro h x hx
    exact beq_iff_eq.mp (h x (List.mem_reverse.mpr hx))
  · intro h x hx
    exact beq_iff_eq.mpr (h x (List.mem_reverse.mp hx))

theorem drop_cons_info (cs : List ClauseRecord) (i : Nat) (c : ClauseRecord)
    (r : List ClauseRecord) (h : cs.drop i = c :: r) :
    recAt cs i = c ∧ cs.drop (i + 1) = r ∧ i < cs.length := by
  have hlen : i < cs.length := by
    by_contra hle
    rw [List.drop_eq_nil_iff.mpr (by omega)] at h
    exact List.noConfusion h
  refine ⟨?_, ?_, hlen⟩
  · unfold recAt
    rw [List.getD_eq_getElem?_getD]
    have h0 : cs[i]? = some c := by
      have h1 := List.getElem?_drop cs i 0
      rw [h] at h1
      simpa using h1.symm
    rw [h0]
    rfl
  · rw [← List.drop_drop 1 i cs, h]
    rfl

/-! ### Transition validator: same depth (C1) -/

/-- Claim C1: for non-empty parsed numbers of equal segment count, the
transition is valid iff all segments except the last agree and the last
segment of `curr` is the last segment of `prev` plus one; when invalid the
reason reads "expected .. at level .., found ..". -/
theorem spec_C1 (prev curr : List Int) (hp : prev ≠ []) (hc : curr ≠ [])
    (hl : curr.length = prev.length) :
    ((is_valid_transition prev curr).1 = true ↔
      ((∀ k, k + 1 < curr.length → curr.getD k 0 = prev.getD k 0) ∧
        curr.getD (curr.length - 1) 0 = prev.getD (prev.length - 1) 0 + 1)) ∧
    ((is_valid_transition prev curr).1 = false →
      (is_valid_transition prev curr).2 =
        some ("expected " ++ toString (prev.getD (prev.length - 1) 0 + 1) ++
          " at level " ++ toString curr.length ++
          ", found " ++ toString (curr.getD (curr.length - 1) 0))) := by
  have hcl : 1 ≤ curr.length := List.length_pos.mpr hc
  have hguard : ¬(prev = [] ∨ curr = []) := by
    intro h
    rcases h with h | h
    · exact hp h
    · exact hc h
  have hcond : (curr.take (curr.length - 1) = prev.take (prev.length - 1) ∧
      curr.getD (curr.length - 1) 0 = prev.getD (prev.length - 1) 0 + 1) ↔
      ((∀ k, k + 1 < curr.length → curr.getD k 0 = prev.getD k 0) ∧
        curr.getD (curr.length - 1) 0 = prev.getD (prev.length - 1) 0 + 1) := by
    refine and_congr ?_ Iff.rfl
    rw [← hl]
    rw [take_eq_iff_getD curr prev (curr.length - 1) (by omega) (by omega)]
    constructor
    · intro h k hk
      exact h k (by omega)
    · intro h k hk
      exact h k (by omega)
  simp only [is_valid_transition]
  rw [if_neg hguard, if_pos hl]
  by_cases hA : (curr.take (curr.length - 1) = prev.take (prev.length - 1) ∧
      curr.getD (curr.length - 1) 0 = prev.getD (prev.length - 1) 0 + 1)
  · rw [if_pos hA]
    exact ⟨⟨fun _ => hcond.mp hA, fun _ => rfl⟩, fun hfalse => absurd hfalse (by simp)⟩
  · rw [if_neg hA]
    exact ⟨⟨fun h => absurd h (by simp), fun h => absurd (hcond.mpr h) hA⟩, fun _ => rfl⟩

theorem spec_C1_witness :
    (is_valid_transition [(1 : Int)] [(3 : Int)]).1 = false ∧
    (is_valid_transition [(1 : Int)] [(3 : Int)]).2 =
      some "expected 2 at level 1, found 3" := by
  refine ⟨by decide, ?_⟩
  have h := (spec_C1 [(1 : Int)] [(3 : Int)] (by decide) (by decide) (by decide)).2 (by decide)
  exact h.trans (by decide)

/-! ### Transition validator: deeper levels (C2) -/

/-- Claim C2: one level deeper is valid iff `curr` extends `prev` with a
final segment 1; a matching prefix with a different final segment yields
the "child should start at 1" reason, a mismatched prefix the "invalid
child" reason; and more than one level deeper is always invalid with the
"skipped hierarchy levels" reason. -/
theorem spec_C2 (prev curr : List Int) (hp : prev ≠ []) (hc : curr ≠ []) :
    (curr.length = prev.length + 1 →
      (((is_valid_transition prev curr).1 = true ↔
          (curr.take prev.length = prev ∧ curr.getD prev.length 0 = 1)) ∧
        (curr.take prev.length = prev → curr.getD prev.length 0 ≠ 1 →
          (is_valid_transition prev curr).2 =
            some ("child should start at 1, found " ++ toString (curr.getD prev.length 0))) ∧
        (curr.take prev.length ≠ prev →
          (is_valid_transition prev curr).2 =
            some ("invalid child: expected " ++ joinDots prev ++ ".1")))) ∧
    (prev.length + 1 < curr.length →
      is_valid_transition prev curr =
        (false, some ("skipped hierarchy levels, expected " ++ (joinDots prev ++ ".1")))) := by
  have hguard : ¬(prev = [] ∨ curr = []) := by
    intro h
    rcases h with h | h
    · exact hp h
    · exact hc h
  constructor
  · intro hl
    have hidx : curr.length - 1 = prev.length := by omega
    simp only [is_valid_transition]
    rw [if_neg hguard, if_neg (by omega : ¬curr.length = prev.length), if_pos hl, hidx]
    by_cases hA : (curr.take prev.length = prev ∧ curr.getD prev.length 0 = 1)
    · rw [if_pos hA]
      refine ⟨⟨fun _ => hA, fun _ => rfl⟩, fun _ hne => absurd hA.2 hne, fun hne => absurd hA.1 hne⟩
    · rw [if_neg hA]
      by_cases hB : curr.take prev.length = prev
      · rw [if_pos hB]
        refine ⟨⟨fun h => absurd h (by simp), fun h => absurd h hA⟩, fun _ _ => rfl,
          fun hne => absurd hB hne⟩
      · rw [if_neg hB]
        refine ⟨⟨fun h => absurd h (by simp), fun h => absurd h.1 hB⟩, fun h _ => absurd h hB,
          fun _ => rfl⟩
  · intro hl
    simp only [is_valid_transition]
    rw [if_neg hguard, if_neg (by omega : ¬curr.length = prev.length),
      if_neg (by omega : ¬curr.length = prev.length + 1),
      if_pos (show curr.length > prev.length + 1 from hl)]

theorem spec_C2_witness :
    (is_valid_transition [(6 : Int)] [6, 1]).1 = true ∧
    (is_valid_transition [(6 : Int)] [6, 2]).2 = some "child should start at 1, found 2" ∧
    (is_valid_transition [(6 : Int)] [6, 1, 1]).2 =
      some "skipped hierarchy levels, expected 6.1" := by
  refine ⟨?_, ?_, ?_⟩
  · exact ((spec_C2 [6] [6, 1] (by decide) (by decide)).1 (by decide)).1.mpr (by decide)
  · have h := ((spec_C2 [6] [6, 2] (by decide) (by decide)).1 (by decide)).2.1 (by decide) (by decide)
    exact h.trans (by decide)
  · have h := (spec_C2 [6] [6, 1, 1] (by decide) (by decide)).2 (by decide)
    exact (congrArg Prod.snd h).trans (by decide)

/-! ### Transition validator: shallower levels (C3) -/

/-- The `for` loop of the shallower branch succeeds on fuel `n` exactly
when some level `L < n` has a matching prefix and an incremented segment
(the loop's `continue` guard is redundant: a fully matching prefix of
length `L + 1` makes the increment test at `L` impossible). -/
theorem ancestorScan_iff (prev curr : List Int) (h : curr.length < prev.length) :
    ∀ n, n ≤ curr.length →
      (ancestorScan prev curr n = true ↔
        ∃ L, L < n ∧ curr.take L = prev.take L ∧ curr.getD L 0 = prev.getD L 0 + 1) := by
  intro n
  induction n with
  | zero =>
    intro _
    simp [ancestorScan]
  | succ m ih =>
    intro hm
    have hm' : m ≤ curr.length := by omega
    have hmp : m < prev.length := by omega
    simp only [ancestorScan]
    by_cases hskip : (m < curr.length - 1 ∧ curr.take (m + 1) = prev.take (m + 1))
    · rw [if_pos hskip, ih hm']
      constructor
      · rintro ⟨L, hL, h1, h2⟩
        exact ⟨L, by omega, h1, h2⟩
      · rintro ⟨L, hL, h1, h2⟩
        rcases Nat.lt_succ_iff_lt_or_eq.mp hL with hL' | rfl
        · exact ⟨L, hL', h1, h2⟩
        · exfalso
          have := getD_eq_of_take_succ_eq curr prev L hskip.2
          omega
    · rw [if_neg hskip, if_pos hmp]
      have ht : (prev.take (m + 1)).take m = prev.take m := by
        rw [List.take_take]
        congr 1
        omega
      have hg : (prev.take (m + 1)).getD m 0 = prev.getD m 0 :=
        getD_take_lt prev (m + 1) m (by omega)
      rw [ht, hg]
      by_cases hsucc : (curr.take m = prev.take m ∧ curr.getD m 0 = prev.getD m 0 + 1)
      · rw [if_pos hsucc]
        exact ⟨fun _ => ⟨m, by omega, hsucc.1, hsucc.2⟩, fun _ => rfl⟩
      · rw [if_neg hsucc, ih hm']
        constructor
        · rintro ⟨L, hL, h1, h2⟩
          exact ⟨L, by omega, h1, h2⟩
        · rintro ⟨L, hL, h1, h2⟩
          rcases Nat.lt_succ_iff_lt_or_eq.mp hL with hL' | rfl
          · exact ⟨L, hL', h1, h2⟩
          · exact absurd ⟨h1, h2⟩ hsucc

/-- Claim C3: for a shallower `curr` the transition is valid iff some
level `L < currLen` has matching prefixes and an incremented segment at
`L`, or `curr` restarts a top-level branch (first segment incremented,
all later segments 1); otherwise the reason is "invalid return to
ancestor level". -/
theorem spec_C3 (prev curr : List Int) (hp : prev ≠ []) (hc : curr ≠ [])
    (hl : curr.length < prev.length) :
    ((is_valid_transition prev curr).1 = true ↔
      ((∃ L, L < curr.length ∧ curr.take L = prev.take L ∧
          curr.getD L 0 = prev.getD L 0 + 1) ∨
        (curr.getD 0 0 = prev.getD 0 0 + 1 ∧
          ∀ k, 1 ≤ k → k < curr.length → curr.getD k 0 = 1))) ∧
    ((is_valid_transition prev curr).1 = false →
      (is_valid_transition prev curr).2 = some "invalid return to ancestor level") := by
  have hguard : ¬(prev = [] ∨ curr = []) := by
    intro h
    rcases h with h | h
    · exact hp h
    · exact hc h
  obtain ⟨a, t, rfl⟩ : ∃ a t, curr = a :: t := by
    cases curr with
    | nil => exact absurd rfl hc
    | cons a t => exact ⟨a, t, rfl⟩
  have hpoint : ((a :: t).drop 1 = List.replicate ((a :: t).length - 1) (1 : Int)) ↔
      (∀ k, 1 ≤ k → k < (a :: t).length → (a :: t).getD k 0 = 1) := by
    simp only [List.drop_one, List.tail_cons, List.length_cons, Nat.add_sub_cancel]
    exact drop_one_replicate_iff a t
  simp only [is_valid_transition]
  rw [if_neg hguard, if_neg (by omega : ¬(a :: t).length = prev.length),
    if_neg (by omega : ¬(a :: t).length = prev.length + 1),
    if_neg (by omega : ¬(a :: t).length > prev.length + 1), if_pos hl]
  by_cases hscan : ancestorScan prev (a :: t) (a :: t).length
  · rw [if_pos hscan]
    have hex := (ancestorScan_iff prev (a :: t) hl (a :: t).length (le_refl _)).mp hscan
    exact ⟨⟨fun _ => Or.inl hex, fun _ => rfl⟩, fun hfalse => absurd hfalse (by simp)⟩
  · rw [if_neg hscan]
    by_cases hroot : ((a :: t).getD 0 0 = prev.getD 0 0 + 1 ∧
        ((a :: t).length = 1 ∨ (a :: t).drop 1 = List.replicate ((a :: t).length - 1) 1))
    · rw [if_pos hroot]
      refine ⟨⟨fun _ => Or.inr ⟨hroot.1, ?_⟩, fun _ => rfl⟩, fun hfalse => absurd hfalse (by simp)⟩
      rcases hroot.2 with h1 | h2
      · intro k hk1 hk2
        simp only [List.length_cons] at hk2 h1
        omega
      · exact hpoint.mp h2
    · rw [if_neg hroot]
      refine ⟨⟨fun h => absurd h (by simp), fun h => ?_⟩, fun _ => rfl⟩
      exfalso
      rcases h with hex | hrt
      · exact hscan ((ancestorScan_iff prev (a :: t) hl (a :: t).length (le_refl _)).mpr hex)
      · refine hroot ⟨hrt.1, Or.inr (hpoint.mpr hrt.2)⟩

theorem spec_C3_witness : (is_valid_transition [6, 1, 2] [6, 2]).1 = true :=
  ((spec_C3 [6, 1, 2] [6, 2] (by decide) (by decide) (by decide)).1).mpr
    (Or.inl ⟨1, by decide, by decide, by decide⟩)

/-! ### Parser (C4) -/

theorem parseSegs_all_some (segs : List (List Char))
    (h : ∀ seg ∈ segs, pyIntOfChars? seg ≠ Option.none) :
    parseSegs segs = some (segs.map (fun seg => (pyIntOfChars? seg).getD 0)) := by
  induction segs with
  | nil => rfl
  | cons p rest ih =>
    obtain ⟨n, hn⟩ : ∃ n, pyIntOfChars? p = some n := by
      cases hpc : pyIntOfChars? p with
      | none => exact absurd hpc (h p (List.mem_cons_self p rest))
      | some n => exact ⟨n, rfl⟩
    have htail := ih (fun s hs => h s (List.mem_cons_of_mem _ hs))
    simp [parseSegs, hn, htail]

theorem parseSegs_has_none (segs : List (List Char))
    (h : ∃ seg ∈ segs, pyIntOfChars? seg = Option.none) :
    parseSegs segs = Option.none := by
  induction segs with
  | nil =>
    rcases h with ⟨s, hs, _⟩
    cases hs
  | cons p rest ih =>
    rcases h with ⟨s, hs, hnone⟩
    rcases List.mem_cons.mp hs with rfl | hs'
    · simp [parseSegs, hnone]
    · cases hpc : pyIntOfChars? p with
      | none => simp [parseSegs, hpc]
      | some n => simp [parseSegs, hpc, ih ⟨s, hs', hnone⟩]

/-- Claim C4 counterexample: the code parses `"-1"` to the segment list
`[-1]` — a non-empty result containing a negative segment — because
Python `int(...)` accepts a sign, so "no returned segment is negative"
fails. -/
theorem spec_C4_counterexample :
    parse_clause_parts (PyVal.str "-1") = [-1] ∧ ((-1 : Int) < 0) := by decide

/-- Claim C4 (amended): `parse` strips trailing dots and splits on `'.'`;
it returns the segment values when every segment is accepted by Python
`int` syntax (optional surrounding whitespace, optional sign, base-10
digits with single underscores between digits — so segments may be
negative), and the empty sequence otherwise, including for empty or
absent input; partial parses are never returned. -/
theorem spec_C4 (v : PyVal) :
    (normalize_clause_number v = "" → parse_clause_parts v = []) ∧
    (normalize_clause_number v ≠ "" →
      ((∀ seg ∈ splitDots (normalize_clause_number v).toList, pyIntOfChars? seg ≠ Option.none) →
        parse_clause_parts v =
          (splitDots (normalize_clause_number v).toList).map
            (fun seg => (pyIntOfChars? seg).getD 0)) ∧
      ((∃ seg ∈ splitDots (normalize_clause_number v).toList, pyIntOfChars? seg = Option.none) →
        parse_clause_parts v = [])) := by
  constructor
  · intro h
    simp [parse_clause_parts, h]
  · intro h
    have hne : (normalize_clause_number v == "") = false := by
      simp [h]
    constructor
    · intro hall
      simp only [parse_clause_parts, hne, Bool.false_eq_true, if_false]
      rw [parseSegs_all_some _ hall, Option.getD_some]
    · intro hex
      simp only [parse_clause_parts, hne, Bool.false_eq_true, if_false]
      rw [parseSegs_has_none _ hex]
      rfl

theorem spec_C4_witness :
    parse_clause_parts (PyVal.str "6.1.2") =
      (splitDots (normalize_clause_number (PyVal.str "6.1.2")).toList).map
        (fun seg => (pyIntOfChars? seg).getD 0) :=
  ((spec_C4 (PyVal.str "6.1.2")).2 (by decide)).1 (by decide)

/-! ### Orchestrator: per-clause decomposition of titles and pages -/


theorem validateGo_titles (l : List ClauseRecord) : ∀ (i : Nat) (st : ScanState),
    (validateGo i st l).empty_titles = titlesFrom i l := by
  induction l with
  | nil =>
    intro i st
    rfl
  | cons c rest ih =>
    intro i st
    simp [validateGo, titlesFrom, ih]

theorem validateGo_pages (l : List ClauseRecord) : ∀ (i : Nat) (st : ScanState),
    (validateGo i st l).invalid_pages = pagesFrom i l := by
  induction l with
  | nil =>
    intro i st
    rfl
  | cons c rest ih =>
    intro i st
    simp [validateGo, pagesFrom, ih]

theorem countP_from_aux {X : Type} (f : Nat → ClauseRecord → List X)
    (p : Nat → X → Bool) (b : ClauseRecord → Bool)
    (F : Nat → List ClauseRecord → List X)
    (hf : ∀ i j c, (f i c).countP (p j) = if i = j ∧ b c = true then 1 else 0)
    (hF0 : ∀ i, F i [] = [])
    (hFc : ∀ i c rest, F i (c :: rest) = f i c ++ F (i + 1) rest) :
    ∀ (l : List ClauseRecord) (i j : Nat),
      (F i l).countP (p j) =
        if i ≤ j ∧ j - i < l.length ∧ b (l.getD (j - i) default) = true then 1 else 0 := by
  intro l
  induction l with
  | nil =>
    intro i j
    rw [hF0, List.countP_nil, List.length_nil]
    split
    next h => exact absurd h.2.1 (Nat.not_lt_zero _)
    next => rfl
  | cons c rest ih =>
    intro i j
    rw [hFc, List.countP_append, hf i j c, ih (i + 1) j]
    rcases Nat.lt_trichotomy j i with hj | hij | hj
    · rw [if_neg (fun h => absurd h.1 (by omega)),
        if_neg (fun h => absurd h.1 (by omega)),
        if_neg (fun h => absurd h.1 (by omega) :
          ¬(i ≤ j ∧ j - i < (c :: rest).length ∧ b ((c :: rest).getD (j - i) default) = true))]
    · subst hij
      rw [if_neg (fun h => absurd h.1 (by omega) :
        ¬(j + 1 ≤ j ∧ j - (j + 1) < rest.length ∧
          b (rest.getD (j - (j + 1)) default) = true))]
      simp only [Nat.sub_self, List.getD_cons_zero, List.length_cons]
      by_cases hb : b c = true
      · rw [if_pos (⟨trivial, hb⟩ : True ∧ b c = true),
          if_pos (⟨le_refl j, by omega, hb⟩ : j ≤ j ∧ 0 < rest.length + 1 ∧ b c = true)]
      · rw [if_neg ((fun h => hb h.2) : ¬(True ∧ b c = true)),
          if_neg ((fun h => hb h.2.2) : ¬(j ≤ j ∧ 0 < rest.length + 1 ∧ b c = true))]
    · rw [if_neg (fun h => absurd h.1 (by omega))]
      have hsub : j - i = (j - (i + 1)) + 1 := by omega
      simp only [List.length_cons, hsub, List.getD_cons_succ]
      have hcond : (i + 1 ≤ j ∧ j - (i + 1) < rest.length ∧
            b (rest.getD (j - (i + 1)) default) = true) ↔
          (i ≤ j ∧ j - (i + 1) + 1 < rest.length + 1 ∧
            b (rest.getD (j - (i + 1)) default) = true) := by
        constructor
        · rintro ⟨h1, h2, h3⟩
          exact ⟨by omega, by omega, h3⟩
        · rintro ⟨h1, h2, h3⟩
          exact ⟨by omega, by omega, h3⟩
      rw [Nat.zero_add, if_congr hcond rfl rfl]

theorem mem_from_aux {X : Type} (f : Nat → ClauseRecord → List X)
    (F : Nat → List ClauseRecord → List X)
    (hFc : ∀ i c rest, F i (c :: rest) = f i c ++ F (i + 1) rest)
    (q : ClauseRecord → Prop) (g : Nat → ClauseRecord → X)
    (hg : ∀ i c, q c → g i c ∈ f i c) :
    ∀ (l : List ClauseRecord) (i j : Nat), i ≤ j → j - i < l.length →
      q (l.getD (j - i) default) → g j (l.getD (j - i) default) ∈ F i l := by
  intro l
  induction l with
  | nil =>
    intro i j _ h2 _
    exact absurd h2 (Nat.not_lt_zero _)
  | cons c rest ih =>
    intro i j h1 h2 hq
    rw [hFc]
    by_cases hij : j = i
    · subst hij
      simp only [Nat.sub_self, List.getD_cons_zero] at hq ⊢
      exact List.mem_append_left _ (hg j c hq)
    · have hsub : j - i = (j - (i + 1)) + 1 := by omega
      rw [hsub, List.getD_cons_succ] at hq ⊢
      refine List.mem_append_right _ (ih (i + 1) j (by omega) ?_ hq)
      simp only [List.length_cons] at h2
      omega

theorem countP_titleList (i j : Nat) (c : ClauseRecord) :
    (titleList i c).countP (fun t => t.index == j) =
      if i = j ∧ blankTitleB c = true then 1 else 0 := by
  unfold titleList
  by_cases hb : blankTitleB c = true
  · by_cases hij : i = j
    · subst hij
      rw [if_pos hb, if_pos (⟨rfl, hb⟩ : i = i ∧ blankTitleB c = true)]
      simp [List.countP_cons]
    · rw [if_pos hb, if_neg ((fun h => hij h.1) : ¬(i = j ∧ blankTitleB c = true))]
      simp [List.countP_cons, beq_iff_eq, hij]
  · rw [if_neg hb, if_neg ((fun h => hb h.2) : ¬(i = j ∧ blankTitleB c = true))]
    rfl

theorem countP_pageList (i j : Nat) (c : ClauseRecord) :
    (pageList i c).countP (fun p => p.index == j) =
      if i = j ∧ pageBadB c = true then 1 else 0 := by
  unfold pageList pageBadB
  by_cases h1 : (pageStrOf c == "") = true
  · by_cases hij : i = j
    · subst hij
      rw [if_pos h1, if_pos (⟨rfl, by rw [h1]; rfl⟩ :
        i = i ∧ (pageStrOf c == "" || !pyFloatAccepts (pageStrOf c)) = true)]
      simp [List.countP_cons]
    · rw [if_pos h1, if_neg ((fun h => hij h.1) :
        ¬(i = j ∧ (pageStrOf c == "" || !pyFloatAccepts (pageStrOf c)) = true))]
      simp [List.countP_cons, beq_iff_eq, hij]
  · rw [if_neg h1]
    by_cases h2 : (!pyFloatAccepts (pageStrOf c)) = true
    · by_cases hij : i = j
      · subst hij
        rw [if_pos h2, if_pos (⟨rfl, by rw [h2, Bool.or_true]⟩ :
          i = i ∧ (pageStrOf c == "" || !pyFloatAccepts (pageStrOf c)) = true)]
        simp [List.countP_cons]
      · rw [if_pos h2, if_neg ((fun h => hij h.1) :
          ¬(i = j ∧ (pageStrOf c == "" || !pyFloatAccepts (pageStrOf c)) = true))]
        simp [List.countP_cons, beq_iff_eq, hij]
    · have hcond : ¬(i = j ∧ (pageStrOf c == "" || !pyFloatAccepts (pageStrOf c)) = true) := by
        rintro ⟨_, hor⟩
        rcases (Bool.or_eq_true _ _).mp hor with h' | h'
        · exact h1 h'
        · exact h2 h'
      rw [if_neg h2, if_neg hcond]
      rfl

/-! ### Spec-side predicates for the title and page checks -/

theorem string_mk_eq_empty_iff (l : List Char) : String.mk l = "" ↔ l = [] := by
  constructor
  · intro h
    have h2 : String.mk l = String.mk [] := h.trans rfl
    injection h2 with h3
  · intro h
    rw [h]

theorem titlesFrom_countP (l : List ClauseRecord) (i j : Nat) :
    (titlesFrom i l).countP (fun t => t.index == j) =
      if i ≤ j ∧ j - i < l.length ∧ blankTitleB (l.getD (j - i) default) = true
      then 1 else 0 :=
  countP_from_aux titleList (fun j t => t.index == j) blankTitleB titlesFrom
    (fun i j c => countP_titleList i j c) (fun _ => rfl) (fun _ _ _ => rfl) l i j

theorem pagesFrom_countP (l : List ClauseRecord) (i j : Nat) :
    (pagesFrom i l).countP (fun p => p.index == j) =
      if i ≤ j ∧ j - i < l.length ∧ pageBadB (l.getD (j - i) default) = true
      then 1 else 0 :=
  countP_from_aux pageList (fun j p => p.index == j) pageBadB pagesFrom
    (fun i j c => countP_pageList i j c) (fun _ => rfl) (fun _ _ _ => rfl) l i j

theorem titlesFrom_mem (l : List ClauseRecord) (i j : Nat) (h1 : i ≤ j)
    (h2 : j - i < l.length) (hq : blankTitleB (l.getD (j - i) default) = true) :
    (⟨j, numOrPlaceholder (l.getD (j - i) default)⟩ : TitleIssue) ∈ titlesFrom i l :=
  mem_from_aux titleList titlesFrom (fun _ _ _ => rfl)
    (fun c => blankTitleB c = true) (fun j c => ⟨j, numOrPlaceholder c⟩)
    (fun i c hq' => by
      unfold titleList
      rw [if_pos hq']
      exact List.mem_singleton.mpr rfl)
    l i j h1 h2 hq

theorem pagesFrom_mem_empty (l : List ClauseRecord) (i j : Nat) (h1 : i ≤ j)
    (h2 : j - i < l.length) (hq : pageStrOf (l.getD (j - i) default) = "") :
    (⟨j, numOrPlaceholder (l.getD (j - i) default), "empty"⟩ : PageIssue) ∈ pagesFrom i l :=
  mem_from_aux pageList pagesFrom (fun _ _ _ => rfl)
    (fun c => pageStrOf c = "") (fun j c => ⟨j, numOrPlaceholder c, "empty"⟩)
    (fun i c hq' => by
      unfold pageList
      rw [if_pos (beq_iff_eq.mpr hq')]
      exact List.mem_singleton.mpr rfl)
    l i j h1 h2 hq

theorem pagesFrom_mem_nonnum (l : List ClauseRecord) (i j : Nat) (h1 : i ≤ j)
    (h2 : j - i < l.length)
    (hq : pageStrOf (l.getD (j - i) default) ≠ "" ∧
      pyFloatAccepts (pageStrOf (l.getD (j - i) default)) = false) :
    (⟨j, numOrPlaceholder (l.getD (j - i) default),
      "non-numeric: '" ++ pageStrOf (l.getD (j - i) default) ++ "'"⟩ : PageIssue) ∈
      pagesFrom i l :=
  mem_from_aux pageList pagesFrom (fun _ _ _ => rfl)
    (fun c => pageStrOf c ≠ "" ∧ pyFloatAccepts (pageStrOf c) = false)
    (fun j c => ⟨j, numOrPlaceholder c, "non-numeric: '" ++ pageStrOf c ++ "'"⟩)
    (fun i c hq' => by
      unfold pageList
      rw [if_neg (fun h => hq'.1 (beq_iff_eq.mp h)),
        if_pos (by rw [hq'.2]; rfl : (!pyFloatAccepts (pageStrOf c)) = true)]
      exact List.mem_singleton.mpr rfl)
    l i j h1 h2 hq


theorem blankTitleB_iff_spec (c : ClauseRecord) (ht : specTitleTextual c) :
    blankTitleB c = true ↔ specTitleBlank c := by
  unfold blankTitleB specTitleBlank
  rcases ht with h | h | ⟨s, h⟩
  · rw [h]
    exact ⟨fun _ => Or.inl rfl, fun _ => by decide⟩
  · rw [h]
    exact ⟨fun _ => Or.inr (Or.inl rfl), fun _ => by decide⟩
  · rw [h]
    simp only [Option.getD_some, pyTruthy, pyStr, Bool.not_not]
    have hstrip : (pyStrip s == "") = true ↔ s.toList.all pySpace = true := by
      rw [beq_iff_eq]
      unfold pyStrip
      rw [string_mk_eq_empty_iff, stripChars_eq_nil_iff, List.all_eq_true]
    constructor
    · intro hl
      rcases (Bool.or_eq_true _ _).mp hl with h' | h'
      · refine Or.inr (Or.inr ⟨s, rfl, ?_⟩)
        have hs : s = "" := beq_iff_eq.mp h'
        subst hs
        decide
      · exact Or.inr (Or.inr ⟨s, rfl, hstrip.mp h'⟩)
    · intro hr
      rcases hr with h' | h' | ⟨s', hs', hall⟩
      · exact absurd h' (by simp)
      · exact absurd h' (by simp)
      · have hss : s = s' := by
          injection hs' with h2
          injection h2 with h3
        subst hss
        exact (Bool.or_eq_true _ _).mpr (Or.inr (hstrip.mpr hall))

theorem numOrPlaceholder_eq_spec (c : ClauseRecord) (hn : specNumberTextual c) :
    numOrPlaceholder c = specRecordedNumber c := by
  unfold numOrPlaceholder numRaw specRecordedNumber
  rcases hn with h | h | ⟨s, h⟩
  · rw [h]
    decide
  · rw [h]
    decide
  · rw [h]
    by_cases hs : s = ""
    · subst hs
      decide
    · have h1 : pyTruthy ((some (PyVal.str s)).getD (PyVal.str "")) = true := by
        simp [pyTruthy, hs]
      rw [if_pos h1]
      simp [hs]

/-! ### Title check (C6) -/

/-- Claim C6: a clause receives an `EmptyTitleIssue` at its index iff its
title is absent (or null), empty, or whitespace-only; exactly one such
issue is produced for that clause, and it records the clause's number or
the placeholder "(no number)" when the number is absent or empty.
Stated for records whose title and number fields are absent, null, or
text — the domain the claim describes. -/
theorem spec_C6 (cs : List ClauseRecord) (i : Nat) (hi : i < cs.length)
    (ht : specTitleTextual (recAt cs i)) (hn : specNumberTextual (recAt cs i)) :
    (specTitleBlank (recAt cs i) →
      ((validate_clauses cs).empty_titles.countP (fun t => t.index == i) = 1 ∧
        (⟨i, specRecordedNumber (recAt cs i)⟩ : TitleIssue) ∈
          (validate_clauses cs).empty_titles)) ∧
    (¬specTitleBlank (recAt cs i) →
      (validate_clauses cs).empty_titles.countP (fun t => t.index == i) = 0) := by
  have hgo : (validate_clauses cs).empty_titles = titlesFrom 0 cs :=
    validateGo_titles cs 0 initState
  have hrec : cs.getD (i - 0) default = recAt cs i := by
    rw [Nat.sub_zero]
    rfl
  have hcount := titlesFrom_countP cs 0 i
  constructor
  · intro hblank
    have hb : blankTitleB (recAt cs i) = true := (blankTitleB_iff_spec _ ht).mpr hblank
    constructor
    · rw [hgo, hcount, if_pos ⟨Nat.zero_le i, by omega, by rw [hrec]; exact hb⟩]
    · rw [hgo, ← numOrPlaceholder_eq_spec _ hn]
      have hm := titlesFrom_mem cs 0 i (Nat.zero_le i) (by omega) (by rw [hrec]; exact hb)
      rwa [hrec] at hm
  · intro hnb
    have hb : blankTitleB (recAt cs i) ≠ true :=
      fun h => hnb ((blankTitleB_iff_spec _ ht).mp h)
    rw [hgo, hcount, if_neg (fun h => hb (by rw [← hrec]; exact h.2.2))]


theorem spec_C6_witness :
    (validate_clauses titleBlankExample).empty_titles.countP (fun t => t.index == 0) = 1 ∧
    (⟨0, specRecordedNumber (recAt titleBlankExample 0)⟩ : TitleIssue) ∈
      (validate_clauses titleBlankExample).empty_titles :=
  (spec_C6 titleBlankExample 0 (by decide)
    (Or.inr (Or.inr ⟨" ", by decide⟩))
    (Or.inr (Or.inr ⟨"1", by decide⟩))).1
    (Or.inr (Or.inr ⟨" ", by decide, by decide⟩))

/-! ### Page check (C7) -/


/-- Claim C7 counterexample: for a null page field the code short-circuits
to the empty string before coercing, producing reason "empty", although
the claim's coerce-then-trim pipeline yields the non-empty, non-numeric
text "None" and so demands reason "non-numeric: 'None'". -/
theorem spec_C7_counterexample :
    (validate_clauses [nullPageRecord]).invalid_pages =
      [⟨0, PyVal.str "(no number)", "empty"⟩] ∧
    pyStrip (pyStr PyVal.none) = "None" ∧
    pyFloatAccepts (pyStrip (pyStr PyVal.none)) = false ∧
    (⟨0, PyVal.str "(no number)", "non-numeric: 'None'"⟩ : PageIssue) ∉
      (validate_clauses [nullPageRecord]).invalid_pages := by decide

/-- Claim C7 (amended): the page field is coerced to text and trimmed,
except that a null page value is treated as empty text; an empty result
yields exactly one `InvalidPageIssue` with reason "empty", a non-empty
result rejected by Python float parsing yields exactly one with reason
"non-numeric: '<trimmed text>'", and no issue is produced otherwise. -/
theorem spec_C7 (cs : List ClauseRecord) (i : Nat) (hi : i < cs.length) :
    (pageStrOf (recAt cs i) = "" →
      ((validate_clauses cs).invalid_pages.countP (fun p => p.index == i) = 1 ∧
        (⟨i, numOrPlaceholder (recAt cs i), "empty"⟩ : PageIssue) ∈
          (validate_clauses cs).invalid_pages)) ∧
    (pageStrOf (recAt cs i) ≠ "" → pyFloatAccepts (pageStrOf (recAt cs i)) = false →
      ((validate_clauses cs).invalid_pages.countP (fun p => p.index == i) = 1 ∧
        (⟨i, numOrPlaceholder (recAt cs i),
          "non-numeric: '" ++ pageStrOf (recAt cs i) ++ "'"⟩ : PageIssue) ∈
          (validate_clauses cs).invalid_pages)) ∧
    (pageStrOf (recAt cs i) ≠ "" → pyFloatAccepts (pageStrOf (recAt cs i)) = true →
      (validate_clauses cs).invalid_pages.countP (fun p => p.index == i) = 0) := by
  have hgo : (validate_clauses cs).invalid_pages = pagesFrom 0 cs :=
    validateGo_pages cs 0 initState
  have hrec : cs.getD (i - 0) default = recAt cs i := by
    rw [Nat.sub_zero]
    rfl
  have hcount := pagesFrom_countP cs 0 i
  refine ⟨?_, ?_, ?_⟩
  · intro hempty
    have hb : pageBadB (recAt cs i) = true := by
      unfold pageBadB
      rw [(beq_iff_eq.mpr hempty : (pageStrOf (recAt cs i) == "") = true)]
      rfl
    constructor
    · rw [hgo, hcount, if_pos ⟨Nat.zero_le i, by omega, by rw [hrec]; exact hb⟩]
    · rw [hgo]
      have hm := pagesFrom_mem_empty cs 0 i (Nat.zero_le i) (by omega)
        (by rw [hrec]; exact hempty)
      rwa [hrec] at hm
  · intro hne hfail
    have hb : pageBadB (recAt cs i) = true := by
      unfold pageBadB
      rw [hfail]
      simp
    constructor
    · rw [hgo, hcount, if_pos ⟨Nat.zero_le i, by omega, by rw [hrec]; exact hb⟩]
    · rw [hgo]
      have hm := pagesFrom_mem_nonnum cs 0 i (Nat.zero_le i) (by omega)
        (by rw [hrec]; exact ⟨hne, hfail⟩)
      rwa [hrec] at hm
  · intro hne hok
    have hb : pageBadB (recAt cs i) ≠ true := by
      unfold pageBadB
      rw [hok]
      intro h
      rcases (Bool.or_eq_true _ _).mp h with h' | h'
      · exact hne (beq_iff_eq.mp h')
      · exact Bool.noConfusion ((Bool.not_true ▸ h' : (false : Bool) = true))
    rw [hgo, hcount, if_neg (fun h => hb (by rw [← hrec]; exact h.2.2))]

theorem spec_C7_witness :
    (validate_clauses [nullPageRecord]).invalid_pages.countP (fun p => p.index == 0) = 1 ∧
    (⟨0, numOrPlaceholder (recAt [nullPageRecord] 0), "empty"⟩ : PageIssue) ∈
      (validate_clauses [nullPageRecord]).invalid_pages :=
  (spec_C7 [nullPageRecord] 0 (by decide)).1 (by decide)

/-! ### Continuity baseline (C5) -/

/-- Every gap recorded by the scan compares the current clause against the
nearest earlier clause whose number parses: generalized invariant over
`validateGo`, where the loop state's baseline (if any) is the nearest
parsable clause before position `i`. -/
theorem validateGo_gaps_spec (cs : List ClauseRecord) :
    ∀ (rest : List ClauseRecord) (i : Nat) (st : ScanState),
      rest = cs.drop i →
      (st.prev_parts ≠ [] →
        ∃ j : Nat, st.prev_index = (j : Int) ∧ j < i ∧
          parse_clause_parts (numRaw (recAt cs j)) ≠ [] ∧
          ∀ m, j < m → m < i → parse_clause_parts (numRaw (recAt cs m)) = []) →
      (st.prev_parts = [] →
        ∀ m, m < i → parse_clause_parts (numRaw (recAt cs m)) = []) →
      ∀ g ∈ (validateGo i st rest).continuity_gaps,
        ∃ j k : Nat, g.prev_index = (j : Int) ∧ g.curr_index = k ∧ j < k ∧
          k < cs.length ∧
          parse_clause_parts (numRaw (recAt cs j)) ≠ [] ∧
          parse_clause_parts (numRaw (recAt cs k)) ≠ [] ∧
          ∀ m, j < m → m < k → parse_clause_parts (numRaw (recAt cs m)) = [] := by
  intro rest
  induction rest with
  | nil =>
    intro i st _ _ _ g hg
    simp [validateGo] at hg
  | cons c rest' ih =>
    intro i st hdrop hinv hinv0 g hg
    obtain ⟨hc, hdrop', hlen⟩ := drop_cons_info cs i c rest' hdrop.symm
    have hval : (validateGo i st (c :: rest')).continuity_gaps =
        gapList i st c ++ (validateGo (i + 1) (stepState i st c) rest').continuity_gaps := rfl
    rw [hval] at hg
    rcases List.mem_append.mp hg with hg1 | hg2
    · unfold gapList at hg1
      by_cases hcond : (parse_clause_parts (numRaw c) ≠ [] ∧ st.prev_parts ≠ [])
      · rw [if_pos hcond] at hg1
        by_cases hv : (is_valid_transition st.prev_parts (parse_clause_parts (numRaw c))).1 = false
        · rw [if_pos hv] at hg1
          have hgeq := List.mem_singleton.mp hg1
          subst hgeq
          obtain ⟨j, hpj, hji, hpars, hbetween⟩ := hinv hcond.2
          refine ⟨j, i, hpj, rfl, hji, hlen, hpars, ?_, ?_⟩
          · rw [hc]
            exact hcond.1
          · intro m hm1 hm2
            exact hbetween m hm1 hm2
        · rw [if_neg hv] at hg1
          cases hg1
      · rw [if_neg hcond] at hg1
        cases hg1
    · by_cases hp : parse_clause_parts (numRaw c) ≠ []
      · have hstep : stepState i st c =
            ⟨numRaw c, parse_clause_parts (numRaw c), (i : Int)⟩ := by
          unfold stepState
          rw [if_pos hp]
        rw [hstep] at hg2
        refine ih (i + 1) _ hdrop'.symm ?_ ?_ g hg2
        · intro _
          refine ⟨i, rfl, by omega, ?_, ?_⟩
          · rw [hc]
            exact hp
          · intro m hm1 hm2
            exact absurd hm2 (by omega)
        · intro hfalse
          exact absurd hfalse hp
      · have hp' : parse_clause_parts (numRaw c) = [] := not_not.mp hp
        have hstep : stepState i st c = st := by
          unfold stepState
          rw [if_neg hp]
        rw [hstep] at hg2
        refine ih (i + 1) st hdrop'.symm ?_ ?_ g hg2
        · intro hne
          obtain ⟨j, hpj, hji, hpars, hbetween⟩ := hinv hne
          refine ⟨j, hpj, by omega, hpars, ?_⟩
          intro m hm1 hm2
          by_cases hmi : m = i
          · subst hmi
            rw [hc]
            exact hp'
          · exact hbetween m hm1 (by omega)
        · intro hnil m hm
          by_cases hmi : m = i
          · subst hmi
            rw [hc]
            exact hp'
          · exact hinv0 hnil m (by omega)

/-- Claim C5: an unparseable clause number never produces a continuity
gap and never becomes the comparison baseline — the previous-parsed
pointer advances only on parsable numbers, so each recorded gap compares
the current clause with the nearest earlier parsable one — and the list
["1", "N/A", "2"] produces no gap. -/
theorem spec_C5 :
    (∀ (cs : List ClauseRecord), ∀ g ∈ (validate_clauses cs).continuity_gaps,
      ∃ j k : Nat, g.prev_index = (j : Int) ∧ g.curr_index = k ∧ j < k ∧
        k < cs.length ∧
        parse_clause_parts (numRaw (recAt cs j)) ≠ [] ∧
        parse_clause_parts (numRaw (recAt cs k)) ≠ [] ∧
        ∀ m, j < m → m < k → parse_clause_parts (numRaw (recAt cs m)) = []) ∧
    (∀ (i : Nat) (st : ScanState) (c : ClauseRecord),
      parse_clause_parts (numRaw c) = [] →
        stepState i st c = st ∧ gapList i st c = []) ∧
    (validate_clauses
      [numberedRecord "1", numberedRecord "N/A", numberedRecord "2"]).continuity_gaps =
      [] := by
  refine ⟨?_, ?_, by decide⟩
  · intro cs g hg
    refine validateGo_gaps_spec cs cs 0 initState rfl ?_ ?_ g hg
    · intro hne
      exact absurd rfl hne
    · intro _ m hm
      exact absurd hm (Nat.not_lt_zero m)
  · intro i st c h
    constructor
    · unfold stepState
      rw [if_neg (fun hne => hne h)]
    · unfold gapList
      rw [if_neg (fun hcond => hcond.1 h)]


theorem spec_C5_witness :
    ∃ j k : Nat,
      (⟨0, 1, PyVal.str "1", PyVal.str "3",
        some "expected 2 at level 1, found 3"⟩ : GapIssue).prev_index = (j : Int) ∧
      (⟨0, 1, PyVal.str "1", PyVal.str "3",
        some "expected 2 at level 1, found 3"⟩ : GapIssue).curr_index = k ∧
      j < k ∧ k < gapPairExample.length ∧
      parse_clause_parts (numRaw (recAt gapPairExample j)) ≠ [] ∧
      parse_clause_parts (numRaw (recAt gapPairExample k)) ≠ [] ∧
      ∀ m, j < m → m < k → parse_clause_parts (numRaw (recAt gapPairExample m)) = [] :=
  spec_C5.1 gapPairExample
    ⟨0, 1, PyVal.str "1", PyVal.str "3", some "expected 2 at level 1, found 3"⟩
    (by decide)

/-! ### Whole-call robustness (C8) -/

theorem validateGo_gaps_append : ∀ (l₁ l₂ : List ClauseRecord) (i : Nat) (st : ScanState),
    (validateGo i st (l₁ ++ l₂)).continuity_gaps =
      (validateGo i st l₁).continuity_gaps ++
      (validateGo (i + l₁.length) (stateGo i st l₁) l₂).continuity_gaps := by
  intro l₁
  induction l₁ with
  | nil =>
    intro l₂ i st
    simp [validateGo, stateGo]
  | cons c rest ih =>
    intro l₂ i st
    have hidx : i + (c :: rest).length = i + 1 + rest.length := by
      rw [List.length_cons]
      omega
    have hstep : (validateGo i st ((c :: rest) ++ l₂)).continuity_gaps =
        gapList i st c ++
          (validateGo (i + 1) (stepState i st c) (rest ++ l₂)).continuity_gaps := rfl
    have hstep1 : (validateGo i st (c :: rest)).continuity_gaps =
        gapList i st c ++ (validateGo (i + 1) (stepState i st c) rest).continuity_gaps := rfl
    have hstate : stateGo i st (c :: rest) = stateGo (i + 1) (stepState i st c) rest := rfl
    rw [hstep, hstep1, hstate, hidx, ih l₂ (i + 1) (stepState i st c), List.append_assoc]

theorem validateGo_titles_append : ∀ (l₁ l₂ : List ClauseRecord) (i : Nat) (st : ScanState),
    (validateGo i st (l₁ ++ l₂)).empty_titles =
      (validateGo i st l₁).empty_titles ++
      (validateGo (i + l₁.length) (stateGo i st l₁) l₂).empty_titles := by
  intro l₁
  induction l₁ with
  | nil =>
    intro l₂ i st
    simp [validateGo, stateGo]
  | cons c rest ih =>
    intro l₂ i st
    have hidx : i + (c :: rest).length = i + 1 + rest.length := by
      rw [List.length_cons]
      omega
    have hstep : (validateGo i st ((c :: rest) ++ l₂)).empty_titles =
        titleList i c ++
          (validateGo (i + 1) (stepState i st c) (rest ++ l₂)).empty_titles := rfl
    have hstep1 : (validateGo i st (c :: rest)).empty_titles =
        titleList i c ++ (validateGo (i + 1) (stepState i st c) rest).empty_titles := rfl
    have hstate : stateGo i st (c :: rest) = stateGo (i + 1) (stepState i st c) rest := rfl
    rw [hstep, hstep1, hstate, hidx, ih l₂ (i + 1) (stepState i st c), List.append_assoc]

theorem validateGo_pages_append : ∀ (l₁ l₂ : List ClauseRecord) (i : Nat) (st : ScanState),
    (validateGo i st (l₁ ++ l₂)).invalid_pages =
      (validateGo i st l₁).invalid_pages ++
      (validateGo (i + l₁.length) (stateGo i st l₁) l₂).invalid_pages := by
  intro l₁
  induction l₁ with
  | nil =>
    intro l₂ i st
    simp [validateGo, stateGo]
  | cons c rest ih =>
    intro l₂ i st
    have hidx : i + (c :: rest).length = i + 1 + rest.length := by
      rw [List.length_cons]
      omega
    have hstep : (validateGo i st ((c :: rest) ++ l₂)).invalid_pages =
        pageList i c ++
          (validateGo (i + 1) (stepState i st c) (rest ++ l₂)).invalid_pages := rfl
    have hstep1 : (validateGo i st (c :: rest)).invalid_pages =
        pageList i c ++ (validateGo (i + 1) (stepState i st c) rest).invalid_pages := rfl
    have hstate : stateGo i st (c :: rest) = stateGo (i + 1) (stepState i st c) rest := rfl
    rw [hstep, hstep1, hstate, hidx, ih l₂ (i + 1) (stepState i st c), List.append_assoc]

/-- Claim C8: the scan never aborts and covers every record once per
check, whatever the fields hold — appending further records (however
malformed) only appends further issues, leaving the issues of the prefix
intact, and a malformed prefix never prevents the suffix from being
scanned.  Exception-freedom itself is reflected in the embedding being
total: every fallible Python operation on a field (`int(...)`,
`float(...)`) is wrapped in `try`/`except` in the source and modelled by a
total acceptance test, and every field access has a default. -/
theorem spec_C8 (xs ys : List ClauseRecord) :
    validate_clauses (xs ++ ys) =
      ⟨(validate_clauses xs).continuity_gaps ++
        (validateGo xs.length (stateGo 0 initState xs) ys).continuity_gaps,
       (validate_clauses xs).empty_titles ++
        (validateGo xs.length (stateGo 0 initState xs) ys).empty_titles,
       (validate_clauses xs).invalid_pages ++
        (validateGo xs.length (stateGo 0 initState xs) ys).invalid_pages⟩ := by
  have hg := validateGo_gaps_append xs ys 0 initState
  have ht := validateGo_titles_append xs ys 0 initState
  have hp := validateGo_pages_append xs ys 0 initState
  rw [Nat.zero_add] at hg ht hp
  have heta : validateGo 0 initState (xs ++ ys) =
      ⟨(validateGo 0 initState (xs ++ ys)).continuity_gaps,
       (validateGo 0 initState (xs ++ ys)).empty_titles,
       (validateGo 0 initState (xs ++ ys)).invalid_pages⟩ := rfl
  unfold validate_clauses
  rw [heta, hg, ht, hp]

/-! ### Display projection (C9, C10) -/

theorem getD_map_displayOf (l : List ClauseRecord) (i : Nat) (h : i < l.length) :
    (l.map displayOf).getD i default = displayOf (l.getD i default) := by
  rw [List.getD_eq_getElem?_getD, List.getD_eq_getElem?_getD, List.getElem?_map,
    List.getElem?_eq_getElem h]
  rfl

/-- Claim C9: the display projection returns exactly one `DisplayClause`
per input record, in input order, the i-th output derived from the i-th
input, independently of validation. -/
theorem spec_C9 (cs : List ClauseRecord) :
    (extract_display_fields cs).length = cs.length ∧
    ∀ i : Nat, i < cs.length →
      (extract_display_fields cs).getD i default = displayOf (recAt cs i) := by
  constructor
  · simp [extract_display_fields]
  · intro i h
    exact getD_map_displayOf cs i h


theorem spec_C9_witness :
    (extract_display_fields displayExample).length = displayExample.length ∧
    (extract_display_fields displayExample).getD 0 default =
      displayOf (recAt displayExample 0) :=
  ⟨(spec_C9 displayExample).1, (spec_C9 displayExample).2 0 (by decide)⟩


/-- Claim C10 counterexample: the record with number "..." — present and
not the empty string — still projects to an empty number, because
normalization strips every trailing dot; so "only a record with the field
absent (or equal to the empty string) projects to an empty number" fails. -/
theorem spec_C10_counterexample :
    ((extract_display_fields [dotsNumberRecord]).getD 0 default).clause_number = "" ∧
    dotsNumberRecord.clause_number = some (PyVal.str "...") ∧
    PyVal.str "..." ≠ PyVal.str "" := by decide

/-- Claim C10 (amended): a present-but-null number field is coerced to
text before normalizing, so it projects to the literal text "None"; and a
record projects to an empty number exactly when the text coercion of its
number field consists only of '.' characters — the empty string (absent
field or empty value) included — since normalization strips trailing
dots. -/
theorem spec_C10 (r : ClauseRecord) :
    (r.clause_number = some PyVal.none →
      ((extract_display_fields [r]).getD 0 default).clause_number = "None") ∧
    (((extract_display_fields [r]).getD 0 default).clause_number = "" ↔
      (pyStr (r.clause_number.getD (PyVal.str ""))).toList.all
        (fun c => c == '.') = true) := by
  have hred : ((extract_display_fields [r]).getD 0 default).clause_number =
      normalize_clause_number
        (PyVal.str (pyStr (r.clause_number.getD (PyVal.str "")))) := rfl
  constructor
  · intro h
    rw [hred, h]
    decide
  · rw [hred]
    generalize pyStr (r.clause_number.getD (PyVal.str "")) = s
    unfold normalize_clause_number
    by_cases ht : pyTruthy (PyVal.str s) = true
    · rw [if_pos ht]
      constructor
      · intro h
        have h2 := (string_mk_eq_empty_iff _).mp h
        have h3 := (rstripDots_eq_nil_iff _).mp h2
        rw [List.all_eq_true]
        intro x hx
        exact beq_iff_eq.mpr (h3 x hx)
      · intro hall
        apply (string_mk_eq_empty_iff _).mpr
        apply (rstripDots_eq_nil_iff _).mpr
        intro x hx
        exact beq_iff_eq.mp (List.all_eq_true.mp hall x hx)
    · rw [if_neg ht]
      have hs0 : s = "" := by
        by_contra hne
        exact ht (by simp [pyTruthy, hne])
      constructor
      · intro _
        rw [hs0]
        decide
      · intro _
        rfl


theorem spec_C10_witness :
    ((extract_display_fields [nullNumberRecord]).getD 0 default).clause_number = "None" :=
  (spec_C10 nullNumberRecord).1 rfl
